import Mathlib

/-!
Verification of the Mandelbrot explorer's numeric core against its
natural-language specification.

The TypeScript sources are shallowly embedded: machine floating-point
numbers are idealised as exact rationals (for the escape-time iteration and
the viewport math, which use only field operations and comparisons) or as
real numbers (for the palette, height and kernel functions, which use
`Math.sin`, `Math.exp`, `Math.log`, `Math.sqrt` and `Math.pow`).  Every
definition mirrors one function of the source; JavaScript `while` loops
become fuel-based structural recursion on the loop's decreasing measure.
-/

/-- Complex number record `{real, imag}` from `src/mandelbrot.ts`. -/
structure QComplex where
  real : ℚ
  imag : ℚ
deriving DecidableEq, Repr

/-- Squared magnitude `z.real * z.real + z.imag * z.imag`, the quantity the
escape test compares against 4. -/
def normSq (z : QComplex) : ℚ :=
  z.real * z.real + z.imag * z.imag

/-- One pass of the loop body of `mandelbrotIteration`: the source computes
`realTemp = z.real*z.real - z.imag*z.imag + c.real`, then overwrites
`z.imag = 2*z.real*z.imag + c.imag` (still reading the old `z.real`), then
`z.real = realTemp`; the net effect is `z := z^2 + c`. -/
def mandelStep (z c : QComplex) : QComplex :=
  ⟨z.real * z.real - z.imag * z.imag + c.real, 2 * z.real * z.imag + c.imag⟩

/-- The orbit `z_0 = 0`, `z_{k+1} = z_k^2 + c` traced by the loop. -/
def zOrbit (c : QComplex) : ℕ → QComplex
  | 0 => ⟨0, 0⟩
  | k + 1 => mandelStep (zOrbit c k) c

namespace MandelbrotCalculator

/-- The `while (n < maxIterations)` loop of
`MandelbrotCalculator.mandelbrotIteration` (`src/mandelbrot.ts`), as
structural recursion on the remaining fuel `maxIterations - n`.  Each pass
updates `z := z^2 + c`, returns the current counter `n` if
`z.real*z.real + z.imag*z.imag > 4`, and otherwise increments `n`.  When the
fuel is exhausted `n = maxIterations` and the source returns
`maxIterations`, i.e. the current `n`. -/
def mandelbrotLoop (c : QComplex) : QComplex → ℕ → ℕ → ℕ
  | _, n, 0 => n
  | z, n, fuel + 1 =>
    let z' := mandelStep z c
    if 4 < normSq z' then n else mandelbrotLoop c z' (n + 1) fuel

/-- `MandelbrotCalculator.mandelbrotIteration` from `src/mandelbrot.ts`:
start from `z = 0`, `n = 0` and run the loop up to `maxIterations` times. -/
def mandelbrotIteration (c : QComplex) (maxIterations : ℕ) : ℕ :=
  mandelbrotLoop c ⟨0, 0⟩ 0 maxIterations

/-- Full characterisation of the loop, generalised over the starting
counter `k` (with the loop's `z` equal to the `k`-th orbit point). -/
theorem mandelbrotLoop_spec (c : QComplex) (fuel : ℕ) :
    ∀ k : ℕ,
      k ≤ mandelbrotLoop c (zOrbit c k) k fuel ∧
      mandelbrotLoop c (zOrbit c k) k fuel ≤ k + fuel ∧
      (∀ m, k ≤ m → m < mandelbrotLoop c (zOrbit c k) k fuel →
        normSq (zOrbit c (m + 1)) ≤ 4) ∧
      (mandelbrotLoop c (zOrbit c k) k fuel < k + fuel →
        4 < normSq (zOrbit c (mandelbrotLoop c (zOrbit c k) k fuel + 1))) := by
  induction fuel with
  | zero =>
    intro k
    simp only [mandelbrotLoop]
    refine ⟨le_refl _, by omega, ?_, by omega⟩
    intro m hkm hmr
    omega
  | succ f ih =>
    intro k
    have hstep : mandelStep (zOrbit c k) c = zOrbit c (k + 1) := rfl
    have hunfold : mandelbrotLoop c (zOrbit c k) k (f + 1) =
        if 4 < normSq (zOrbit c (k + 1)) then k
        else mandelbrotLoop c (zOrbit c (k + 1)) (k + 1) f := by
      simp only [mandelbrotLoop, hstep]
    by_cases hesc : 4 < normSq (zOrbit c (k + 1))
    · have hval : mandelbrotLoop c (zOrbit c k) k (f + 1) = k := by
        rw [hunfold, if_pos hesc]
      refine ⟨by omega, by omega, ?_, ?_⟩
      · intro m hkm hmr
        omega
      · intro _
        rw [hval]
        exact hesc
    · have hval : mandelbrotLoop c (zOrbit c k) k (f + 1) =
          mandelbrotLoop c (zOrbit c (k + 1)) (k + 1) f := by
        rw [hunfold, if_neg hesc]
      obtain ⟨ih1, ih2, ih3, ih4⟩ := ih (k + 1)
      rw [hval]
      refine ⟨by omega, by omega, ?_, ?_⟩
      · intro m hkm hmr
        rcases Nat.eq_or_lt_of_le hkm with h | h
        · subst h
          exact le_of_not_lt hesc
        · exact ih3 m h hmr
      · intro hlt
        exact ih4 (by omega)

/-- Characterisation at the published entry point `mandelbrotIteration`. -/
theorem mandelbrotIteration_spec (c : QComplex) (M : ℕ) :
    mandelbrotIteration c M ≤ M ∧
    (∀ m, m < mandelbrotIteration c M → normSq (zOrbit c (m + 1)) ≤ 4) ∧
    (mandelbrotIteration c M < M →
      4 < normSq (zOrbit c (mandelbrotIteration c M + 1))) := by
  have h := mandelbrotLoop_spec c M 0
  have h0 : zOrbit c 0 = ⟨0, 0⟩ := rfl
  rw [h0] at h
  obtain ⟨_, h2, h3, h4⟩ := h
  exact ⟨by simpa using h2, fun m hm => h3 m (Nat.zero_le m) hm, by simpa using h4⟩

end MandelbrotCalculator

namespace MandelbrotExplorer

/-- The `while (n < maxIterations)` loop of the private
`MandelbrotExplorer.mandelbrotIteration` (`src/index.ts`), embedded exactly
like the calculator's loop. -/
def mandelbrotLoop (c : QComplex) : QComplex → ℕ → ℕ → ℕ
  | _, n, 0 => n
  | z, n, fuel + 1 =>
    let z' := mandelStep z c
    if 4 < normSq z' then n else mandelbrotLoop c z' (n + 1) fuel

/-- `MandelbrotExplorer.mandelbrotIteration` from `src/index.ts`: same body
as the calculator's, with `maxIterations` passed as an argument. -/
def mandelbrotIteration (c : QComplex) (maxIterations : ℕ) : ℕ :=
  mandelbrotLoop c ⟨0, 0⟩ 0 maxIterations

theorem mandelbrotLoop_eq_calculator (c : QComplex) :
    ∀ (fuel : ℕ) (z : QComplex) (n : ℕ),
      mandelbrotLoop c z n fuel = MandelbrotCalculator.mandelbrotLoop c z n fuel := by
  intro fuel
  induction fuel with
  | zero => intro z n; rfl
  | succ f ih =>
    intro z n
    simp only [mandelbrotLoop, MandelbrotCalculator.mandelbrotLoop]
    split <;> simp [ih]

end MandelbrotExplorer

/-- C1: the escape-time iteration of `MandelbrotCalculator` iterates
`z <- z^2 + c` from `z = 0`, returns the step count `n` the first time
`real^2 + imag^2 > 4`, returns `maxIterations` when no escape occurs within
`maxIterations` steps, and always returns a value in `[0, maxIterations]`
(the result is a total Lean function of its arguments, hence deterministic
and side-effect free).  Conjuncts: (1) the result is at most
`maxIterations`; (2) no orbit point checked before the returned step
escapes, so the returned step is the first escape when one exists, and when
the result equals `maxIterations` no escape occurred within the bound;
(3) when the result is less than `maxIterations`, the orbit point checked
at that step does escape. -/
theorem mandelbrotIteration_escape_time_spec (c : QComplex) (M : ℕ) :
    MandelbrotCalculator.mandelbrotIteration c M ≤ M ∧
    (∀ m, m < MandelbrotCalculator.mandelbrotIteration c M →
      normSq (zOrbit c (m + 1)) ≤ 4) ∧
    (MandelbrotCalculator.mandelbrotIteration c M < M →
      4 < normSq (zOrbit c (MandelbrotCalculator.mandelbrotIteration c M + 1))) ∧
    ((∀ n, n < M → normSq (zOrbit c (n + 1)) ≤ 4) →
      MandelbrotCalculator.mandelbrotIteration c M = M) := by
  obtain ⟨h1, h2, h3⟩ := MandelbrotCalculator.mandelbrotIteration_spec c M
  refine ⟨h1, h2, h3, ?_⟩
  intro hno
  by_contra hne
  have hlt : MandelbrotCalculator.mandelbrotIteration c M < M :=
    lt_of_le_of_ne h1 hne
  exact absurd (h3 hlt) (not_lt.mpr (hno _ hlt))

/-- Witness for C1 at `c = 3 + 0i`, `maxIterations = 5`: the inner
implications of the characterisation are discharged at a concrete input
(the iteration returns 0 there, and the first orbit point escapes). -/
theorem mandelbrotIteration_escape_time_spec_witness :
    MandelbrotCalculator.mandelbrotIteration ⟨3, 0⟩ 5 < 5 ∧
    4 < normSq (zOrbit ⟨3, 0⟩ (MandelbrotCalculator.mandelbrotIteration ⟨3, 0⟩ 5 + 1)) := by
  have h5 : MandelbrotCalculator.mandelbrotIteration ⟨3, 0⟩ 5 < 5 := by
    norm_num [MandelbrotCalculator.mandelbrotIteration,
      MandelbrotCalculator.mandelbrotLoop, mandelStep, normSq]
  exact ⟨h5, (mandelbrotIteration_escape_time_spec ⟨3, 0⟩ 5).2.2.1 h5⟩

/-- C10: the two independent escape-time implementations
(`MandelbrotCalculator.mandelbrotIteration` in `src/mandelbrot.ts` and the
private `mandelbrotIteration` in `src/index.ts`) compute the same function
on every input. -/
theorem mandelbrotIteration_implementations_agree (c : QComplex) (M : ℕ) :
    MandelbrotExplorer.mandelbrotIteration c M =
      MandelbrotCalculator.mandelbrotIteration c M := by
  unfold MandelbrotExplorer.mandelbrotIteration MandelbrotCalculator.mandelbrotIteration
  exact MandelbrotExplorer.mandelbrotLoop_eq_calculator c M ⟨0, 0⟩ 0

/-- C5 counterexample: the claim quantifies over every
`maxIterations ≥ 0`, but at `c = 3 + 0i` (which satisfies `|c| > 2`, since
`normSq c = 9 > 4`) and `maxIterations = 0` the loop never runs and the
function returns `0 = maxIterations`, which is not strictly less than
`maxIterations`. -/
theorem mandelbrotIteration_far_point_maxIter_zero :
    normSq ⟨3, 0⟩ > 4 ∧
    MandelbrotCalculator.mandelbrotIteration ⟨3, 0⟩ 0 = 0 ∧
    ¬ MandelbrotCalculator.mandelbrotIteration ⟨3, 0⟩ 0 < 0 := by
  refine ⟨by norm_num [normSq], rfl, by omega⟩

/-- C5 (amended): for every `c` with `|c| > 2` (equivalently
`normSq c > 4`) and every `maxIterations ≥ 1`, the escape-time iteration
escapes on the first iteration — the first computed `z` equals `c` and
already satisfies `|z|^2 > 4` — so the returned count is `0`, which is
strictly less than `maxIterations`. -/
theorem mandelbrotIteration_escapes_immediately (c : QComplex) (M : ℕ)
    (hc : 4 < normSq c) (hM : 1 ≤ M) :
    MandelbrotCalculator.mandelbrotIteration c M = 0 ∧
    MandelbrotCalculator.mandelbrotIteration c M < M := by
  have hz1 : mandelStep ⟨0, 0⟩ c = c := by
    cases c with
    | mk re im => simp [mandelStep]
  obtain ⟨f, rfl⟩ : ∃ f, M = f + 1 := ⟨M - 1, by omega⟩
  have : MandelbrotCalculator.mandelbrotIteration c (f + 1) = 0 := by
    unfold MandelbrotCalculator.mandelbrotIteration
    simp only [MandelbrotCalculator.mandelbrotLoop, hz1, hc, if_pos]
  exact ⟨this, by omega⟩

/-- Witness for C5 (amended) at `c = 3 + 0i`, `maxIterations = 1`. -/
theorem mandelbrotIteration_escapes_immediately_witness :
    MandelbrotCalculator.mandelbrotIteration ⟨3, 0⟩ 1 = 0 ∧
    MandelbrotCalculator.mandelbrotIteration ⟨3, 0⟩ 1 < 1 :=
  mandelbrotIteration_escapes_immediately ⟨3, 0⟩ 1 (by norm_num [normSq]) (by omega)

namespace MandelbrotExplorer

/-- Viewport record `{centerX, centerY, zoom}` from `src/mandelbrot.ts`. -/
structure ViewPort where
  centerX : ℚ
  centerY : ℚ
  zoom : ℚ
deriving DecidableEq, Repr

/-- The pixel-to-complex-plane mapping used throughout `src/index.ts`
(`handleMouseMove`, `calculateWithColorScheme`, `calculateIterationData`):
`scale = 4 / (zoom * min(width, height))`,
`real = centerX + (px - width/2) * scale`,
`imag = centerY + (py - height/2) * scale`. -/
def pixelToComplex (px py : ℚ) (vp : ViewPort) (w h : ℚ) : QComplex :=
  let scale := 4 / (vp.zoom * min w h)
  ⟨vp.centerX + (px - w / 2) * scale, vp.centerY + (py - h / 2) * scale⟩

/-- `MandelbrotExplorer.handleWheel` from `src/index.ts`: the cursor's
complex offset is computed under the current scale, `zoom` is multiplied by
`0.9` (wheel down, `deltaY > 0`) or `1.1` (wheel up), the offset is
recomputed under the new scale, and the center is shifted by the delta. -/
def handleWheel (vp : ViewPort) (clientX clientY w h deltaY : ℚ) : ViewPort :=
  let scale := 4 / (vp.zoom * min w h)
  let mouseX := clientX - w / 2
  let mouseY := clientY - h / 2
  let realOffset := mouseX * scale
  let imagOffset := mouseY * scale
  let zoomFactor : ℚ := if 0 < deltaY then 9 / 10 else 11 / 10
  let newZoom := vp.zoom * zoomFactor
  let newScale := 4 / (newZoom * min w h)
  let newRealOffset := mouseX * newScale
  let newImagOffset := mouseY * newScale
  ⟨vp.centerX + (realOffset - newRealOffset),
   vp.centerY + (imagOffset - newImagOffset),
   newZoom⟩

/-- The zoom factor of the drag-to-zoom branch of `handleMouseUp`
(`src/index.ts`): the larger of the rectangle's relative width and
height. -/
def rectZoomFactor (startX endX startY endY w h : ℚ) : ℚ :=
  max ((endX - startX) / w) ((endY - startY) / h)

/-- The non-rectangle-selection (drag-to-zoom) branch of
`MandelbrotExplorer.handleMouseUp` (`src/index.ts`): order the drag
endpoints, recenter the viewport on the rectangle midpoint mapped through
the pre-drag viewport, and divide `zoom` by the rectangle's larger
relative dimension.  The source contains no check for degenerate
rectangles. -/
def handleMouseUpZoom (vp : ViewPort) (dragStartX dragStartY dragEndX dragEndY w h : ℚ) :
    ViewPort :=
  let startX := min dragStartX dragEndX
  let endX := max dragStartX dragEndX
  let startY := min dragStartY dragEndY
  let endY := max dragStartY dragEndY
  let scale := 4 / (vp.zoom * min w h)
  let centerX := (startX + endX) / 2
  let centerY := (startY + endY) / 2
  let newCenterX := vp.centerX + (centerX - w / 2) * scale
  let newCenterY := vp.centerY + (centerY - h / 2) * scale
  let zoomFactor := rectZoomFactor startX endX startY endY w h
  ⟨newCenterX, newCenterY, vp.zoom / zoomFactor⟩

end MandelbrotExplorer

/-- C2: for every viewport with `zoom > 0`, every cursor pixel, every
canvas size and either wheel direction (zoom factor `0.9` for `deltaY > 0`,
else `1.1`), `handleWheel` leaves the complex-plane point under the cursor
unchanged: mapping the cursor pixel through the post-zoom viewport gives
exactly the same point as through the pre-zoom viewport (exact rational
arithmetic; the implementation realises this up to floating-point
rounding). -/
theorem handleWheel_fixes_cursor_point (vp : MandelbrotExplorer.ViewPort)
    (clientX clientY w h deltaY : ℚ) (hzoom : 0 < vp.zoom) :
    MandelbrotExplorer.pixelToComplex clientX clientY
        (MandelbrotExplorer.handleWheel vp clientX clientY w h deltaY) w h =
      MandelbrotExplorer.pixelToComplex clientX clientY vp w h := by
  simp only [MandelbrotExplorer.pixelToComplex, MandelbrotExplorer.handleWheel]
  congr 1 <;> ring

/-- Witness for C2 at viewport `(-1/2, 0, 1)`, cursor `(100, 100)`, canvas
`800 x 600`, wheel up (`deltaY = -3`). -/
theorem handleWheel_fixes_cursor_point_witness :
    MandelbrotExplorer.pixelToComplex 100 100
        (MandelbrotExplorer.handleWheel ⟨-1/2, 0, 1⟩ 100 100 800 600 (-3)) 800 600 =
      MandelbrotExplorer.pixelToComplex 100 100 ⟨-1/2, 0, 1⟩ 800 600 :=
  handleWheel_fixes_cursor_point ⟨-1/2, 0, 1⟩ 100 100 800 600 (-3) (by norm_num)

/-- C7: a drag-to-zoom gesture covering exactly the full canvas (drag from
pixel `(0,0)` to `(canvasWidth, canvasHeight)`) computes zoom factor `1`
and leaves the viewport unchanged. -/
theorem handleMouseUpZoom_full_canvas (vp : MandelbrotExplorer.ViewPort)
    (w h : ℚ) (hw : 0 < w) (hh : 0 < h) :
    MandelbrotExplorer.rectZoomFactor 0 w 0 h w h = 1 ∧
    MandelbrotExplorer.handleMouseUpZoom vp 0 0 w h w h = vp := by
  have hfac : MandelbrotExplorer.rectZoomFactor 0 w 0 h w h = 1 := by
    simp only [MandelbrotExplorer.rectZoomFactor, sub_zero,
      div_self (ne_of_gt hw), div_self (ne_of_gt hh), max_self]
  refine ⟨hfac, ?_⟩
  cases vp with
  | mk cx cy z =>
    simp only [MandelbrotExplorer.handleMouseUpZoom, hfac,
      min_eq_left (le_of_lt hw), min_eq_left (le_of_lt hh),
      max_eq_right (le_of_lt hw), max_eq_right (le_of_lt hh),
      MandelbrotExplorer.ViewPort.mk.injEq]
    refine ⟨by ring, by ring, by simp⟩

/-- Witness for C7 at viewport `(-1/2, 0, 1)` on an `800 x 600` canvas. -/
theorem handleMouseUpZoom_full_canvas_witness :
    MandelbrotExplorer.rectZoomFactor 0 800 0 600 800 600 = 1 ∧
    MandelbrotExplorer.handleMouseUpZoom ⟨-1/2, 0, 1⟩ 0 0 800 600 800 600 =
      ⟨-1/2, 0, 1⟩ :=
  handleMouseUpZoom_full_canvas ⟨-1/2, 0, 1⟩ 800 600 (by norm_num) (by norm_num)

/-- C3: the claim (and the specification) require a drag-to-zoom gesture
with a zero-width or zero-height selection rectangle to leave the viewport
unmutated, but `handleMouseUp` has no such guard: dragging from pixel
`(100,100)` straight down to `(100,300)` (a zero-width rectangle) on an
`800 x 600` canvas with viewport `(-1/2, 0, 1)` recenters the viewport and
triples the zoom.  (For a fully degenerate drag with equal endpoints the
computed zoom factor is `0` and the source divides the zoom by it, which in
JavaScript floating point yields an infinite zoom.) -/
theorem handleMouseUpZoom_degenerate_mutates :
    MandelbrotExplorer.handleMouseUpZoom ⟨-1/2, 0, 1⟩ 100 100 100 300 800 600 =
      ⟨-5/2, -2/3, 3⟩ ∧
    MandelbrotExplorer.handleMouseUpZoom ⟨-1/2, 0, 1⟩ 100 100 100 300 800 600 ≠
      ⟨-1/2, 0, 1⟩ ∧
    MandelbrotExplorer.rectZoomFactor 100 100 100 100 800 600 = 0 := by
  refine ⟨?_, ?_, ?_⟩
  · norm_num [MandelbrotExplorer.handleMouseUpZoom, MandelbrotExplorer.rectZoomFactor,
      MandelbrotExplorer.ViewPort.mk.injEq]
  · norm_num [MandelbrotExplorer.handleMouseUpZoom, MandelbrotExplorer.rectZoomFactor,
      MandelbrotExplorer.ViewPort.mk.injEq]
  · norm_num [MandelbrotExplorer.rectZoomFactor]

/-- RGB record `{r, g, b}` from `src/colorSchemes.ts`; channels are the
integers produced by `Math.floor` / `Math.round`. -/
structure RGB where
  r : ℤ
  g : ℤ
  b : ℤ
deriving DecidableEq, Repr

/-- Channel-range predicate: every channel lies in `[0, 255]`. -/
def RGB.inRange (c : RGB) : Prop :=
  0 ≤ c.r ∧ c.r ≤ 255 ∧ 0 ≤ c.g ∧ c.g ≤ 255 ∧ 0 ≤ c.b ∧ c.b ≤ 255

/-- The twelve named palette schemes of the `ColorScheme` union type in
`src/colorSchemes.ts`. -/
inductive ColorScheme where
  | classic
  | fire
  | ocean
  | rainbow
  | grayscale
  | sunset
  | neon
  | forest
  | cosmic
  | copper
  | ice
  | volcanic
deriving DecidableEq, Repr

namespace ColorSchemes

/-- The `hue2rgb` helper of `hslToRgb` (`src/colorSchemes.ts`): the two
sequential wrap-around adjustments of `t` followed by the four-way branch. -/
noncomputable def hue2rgb (p q t0 : ℝ) : ℝ :=
  let t1 := if t0 < 0 then t0 + 1 else t0
  let t := if 1 < t1 then t1 - 1 else t1
  if t < 1 / 6 then p + (q - p) * 6 * t
  else if t < 1 / 2 then q
  else if t < 2 / 3 then p + (q - p) * (2 / 3 - t) * 6
  else p

/-- `ColorSchemes.hslToRgb` from `src/colorSchemes.ts`; `Math.round` is
embedded as `round`. -/
noncomputable def hslToRgb (h s l : ℝ) : RGB :=
  let h := h / 360
  let s := s / 100
  let l := l / 100
  if s = 0 then
    ⟨round (l * 255), round (l * 255), round (l * 255)⟩
  else
    let q := if l < 1 / 2 then l * (1 + s) else l + s - l * s
    let p := 2 * l - q
    ⟨round (hue2rgb p q (h + 1 / 3) * 255),
     round (hue2rgb p q h * 255),
     round (hue2rgb p q (h - 1 / 3) * 255)⟩

/-- `classicScheme`: hue rotation at full saturation, half lightness. -/
noncomputable def classicScheme (x : ℝ) : RGB :=
  hslToRgb (x * 360) 100 50

/-- `fireScheme`: red ramp then green ramp. -/
noncomputable def fireScheme (x : ℝ) : RGB :=
  if x < 0.5 then ⟨⌊x * 2 * 255⌋, 0, 0⟩
  else ⟨255, ⌊(x - 0.5) * 2 * 255⌋, 0⟩

/-- `oceanScheme`: linear channel scaling. -/
noncomputable def oceanScheme (x : ℝ) : RGB :=
  ⟨⌊x * 50⌋, ⌊x * 100 + 50⌋, ⌊x * 200 + 55⌋⟩

/-- `rainbowScheme`: six-segment hue wheel; the JavaScript `(x * 6) % 1`
on a non-negative argument is the fractional part. -/
noncomputable def rainbowScheme (x : ℝ) : RGB :=
  let segment := ⌊x * 6⌋
  let t := Int.fract (x * 6)
  if segment = 0 then ⟨255, ⌊t * 255⌋, 0⟩
  else if segment = 1 then ⟨⌊(1 - t) * 255⌋, 255, 0⟩
  else if segment = 2 then ⟨0, 255, ⌊t * 255⌋⟩
  else if segment = 3 then ⟨0, ⌊(1 - t) * 255⌋, 255⟩
  else if segment = 4 then ⟨⌊t * 255⌋, 0, 255⟩
  else if segment = 5 then ⟨255, 0, ⌊(1 - t) * 255⌋⟩
  else ⟨255, 0, 0⟩

/-- `grayscaleScheme`: equal channels. -/
noncomputable def grayscaleScheme (x : ℝ) : RGB :=
  let value := ⌊x * 255⌋
  ⟨value, value, value⟩

/-- `sunsetScheme`: three-segment purple / orange / yellow ramp. -/
noncomputable def sunsetScheme (x : ℝ) : RGB :=
  if x < 0.3 then
    let t := x / 0.3
    ⟨⌊75 + t * 180⌋, ⌊0 + t * 50⌋, ⌊130 + t * 125⌋⟩
  else if x < 0.7 then
    let t := (x - 0.3) / 0.4
    ⟨⌊(255 : ℝ)⌋, ⌊50 + t * 115⌋, ⌊255 - t * 255⌋⟩
  else
    let t := (x - 0.7) / 0.3
    ⟨⌊(255 : ℝ)⌋, ⌊165 + t * 90⌋, ⌊0 + t * 50⌋⟩

/-- `neonScheme`: phase-shifted sinusoids. -/
noncomputable def neonScheme (x : ℝ) : RGB :=
  let phase := x * Real.pi * 4
  ⟨⌊128 + 127 * Real.sin phase⌋,
   ⌊128 + 127 * Real.sin (phase + Real.pi * 2 / 3)⌋,
   ⌊128 + 127 * Real.sin (phase + Real.pi * 4 / 3)⌋⟩

/-- `forestScheme`: three-segment green ramp. -/
noncomputable def forestScheme (x : ℝ) : RGB :=
  if x < 0.4 then
    let t := x / 0.4
    ⟨⌊0 + t * 34⌋, ⌊50 + t * 89⌋, ⌊0 + t * 34⌋⟩
  else if x < 0.8 then
    let t := (x - 0.4) / 0.4
    ⟨⌊34 + t * 50⌋, ⌊139 + t * 76⌋, ⌊34 + t * 50⌋⟩
  else
    let t := (x - 0.8) / 0.2
    ⟨⌊84 + t * 171⌋, ⌊215 + t * 40⌋, ⌊84 - t * 84⌋⟩

/-- `cosmicScheme`: four-segment black / purple / blue / white ramp. -/
noncomputable def cosmicScheme (x : ℝ) : RGB :=
  if x < 0.25 then
    let t := x / 0.25
    ⟨⌊t * 75⌋, ⌊t * 0⌋, ⌊t * 130⌋⟩
  else if x < 0.5 then
    let t := (x - 0.25) / 0.25
    ⟨⌊75 + t * 103⌋, ⌊0 + t * 58⌋, ⌊130 + t * 108⌋⟩
  else if x < 0.75 then
    let t := (x - 0.5) / 0.25
    ⟨⌊178 - t * 178⌋, ⌊58 + t * 197⌋, ⌊238 + t * 17⌋⟩
  else
    let t := (x - 0.75) / 0.25
    ⟨⌊0 + t * 255⌋, ⌊(255 : ℝ)⌋, ⌊(255 : ℝ)⌋⟩

/-- `copperScheme`: metallic ramp through `Math.pow(x, 0.7)` (embedded as
the real power `x ^ (0.7 : ℝ)`). -/
noncomputable def copperScheme (x : ℝ) : RGB :=
  let base := x ^ (0.7 : ℝ)
  ⟨⌊base * 255⌋, ⌊base * 140⌋, ⌊base * 90⌋⟩

/-- `iceScheme`: three-segment blue / cyan / white ramp. -/
noncomputable def iceScheme (x : ℝ) : RGB :=
  if x < 0.3 then
    let t := x / 0.3
    ⟨⌊0 + t * 70⌋, ⌊50 + t * 130⌋, ⌊100 + t * 155⌋⟩
  else if x < 0.7 then
    let t := (x - 0.3) / 0.4
    ⟨⌊70 + t * 115⌋, ⌊180 + t * 75⌋, ⌊(255 : ℝ)⌋⟩
  else
    let t := (x - 0.7) / 0.3
    ⟨⌊185 + t * 70⌋, ⌊(255 : ℝ)⌋, ⌊(255 : ℝ)⌋⟩

/-- `volcanicScheme`: five-segment black / red / orange / yellow / white
ramp. -/
noncomputable def volcanicScheme (x : ℝ) : RGB :=
  if x < 0.2 then
    let t := x / 0.2
    ⟨⌊t * 139⌋, ⌊t * 0⌋, ⌊t * 0⌋⟩
  else if x < 0.4 then
    let t := (x - 0.2) / 0.2
    ⟨⌊139 + t * 116⌋, ⌊0 + t * 0⌋, ⌊0 + t * 0⌋⟩
  else if x < 0.6 then
    let t := (x - 0.4) / 0.2
    ⟨⌊(255 : ℝ)⌋, ⌊0 + t * 140⌋, ⌊(0 : ℝ)⌋⟩
  else if x < 0.8 then
    let t := (x - 0.6) / 0.2
    ⟨⌊(255 : ℝ)⌋, ⌊140 + t * 115⌋, ⌊0 + t * 0⌋⟩
  else
    let t := (x - 0.8) / 0.2
    ⟨⌊(255 : ℝ)⌋, ⌊(255 : ℝ)⌋, ⌊0 + t * 255⌋⟩

/-- `ColorSchemes.getColor` from `src/colorSchemes.ts`: black at the
in-set sentinel, otherwise dispatch on the scheme over the ratio
`iterations / maxIterations`.  The TypeScript `switch` has a `default`
arm falling back to `classicScheme`; the `ColorScheme` union makes it
unreachable, and the closed inductive embedding has no extra values. -/
noncomputable def getColor (iterations maxIterations : ℝ) (scheme : ColorScheme) : RGB :=
  if iterations = maxIterations then ⟨0, 0, 0⟩
  else
    let x := iterations / maxIterations
    match scheme with
    | ColorScheme.classic => classicScheme x
    | ColorScheme.fire => fireScheme x
    | ColorScheme.ocean => oceanScheme x
    | ColorScheme.rainbow => rainbowScheme x
    | ColorScheme.grayscale => grayscaleScheme x
    | ColorScheme.sunset => sunsetScheme x
    | ColorScheme.neon => neonScheme x
    | ColorScheme.forest => forestScheme x
    | ColorScheme.cosmic => cosmicScheme x
    | ColorScheme.copper => copperScheme x
    | ColorScheme.ice => iceScheme x
    | ColorScheme.volcanic => volcanicScheme x

end ColorSchemes

namespace ColorSchemes

/-- A real below 256 has floor at most 255. -/
lemma floor_le_255 {x : ℝ} (h : x < 256) : ⌊x⌋ ≤ 255 := by
  have : ⌊x⌋ < (256 : ℤ) := Int.floor_lt.mpr (by exact_mod_cast h)
  omega

/-- A nonnegative real rounds to a nonnegative integer. -/
lemma round_nonneg_of {x : ℝ} (h : 0 ≤ x) : 0 ≤ round x := by
  rw [round_eq]
  exact Int.floor_nonneg.mpr (by linarith)

/-- A real at most 255 rounds to at most 255. -/
lemma round_le_255 {x : ℝ} (h : x ≤ 255) : round x ≤ 255 := by
  rw [round_eq]
  exact floor_le_255 (by linarith)

/-- With `p = 0`, `q = 1` (the saturated half-lightness case) and an input
needing at most one wrap, `hue2rgb` stays in `[0, 1]`. -/
lemma hue2rgb_mem {t0 : ℝ} (h1 : -1 ≤ t0) :
    0 ≤ hue2rgb 0 1 t0 ∧ hue2rgb 0 1 t0 ≤ 1 := by
  simp only [hue2rgb]
  split_ifs <;> constructor <;> linarith

/-- Scaling a `[0, 1]` value to `[0, 255]` and rounding stays in range. -/
lemma round_mem_of_unit {v : ℝ} (h0 : 0 ≤ v) (h1 : v ≤ 1) :
    0 ≤ round (v * 255) ∧ round (v * 255) ≤ 255 :=
  ⟨round_nonneg_of (by linarith), round_le_255 (by linarith)⟩

lemma classicScheme_inRange {x : ℝ} (h0 : 0 ≤ x) (h1 : x < 1) :
    (classicScheme x).inRange := by
  simp only [classicScheme, hslToRgb]
  have hx : x * 360 / 360 = x := by ring
  rw [if_neg (by norm_num : (100 : ℝ) / 100 ≠ 0),
    if_neg (by norm_num : ¬ (50 : ℝ) / 100 < 1 / 2)]
  have hq : (50 : ℝ) / 100 + 100 / 100 - 50 / 100 * (100 / 100) = 1 := by norm_num
  rw [hq]
  have hp : 2 * ((50 : ℝ) / 100) - 1 = 0 := by norm_num
  rw [hp, hx]
  have m1 := @hue2rgb_mem (x + 1 / 3) (by linarith)
  have m2 := @hue2rgb_mem x (by linarith)
  have m3 := @hue2rgb_mem (x - 1 / 3) (by linarith)
  have r1 := round_mem_of_unit m1.1 m1.2
  have r2 := round_mem_of_unit m2.1 m2.2
  have r3 := round_mem_of_unit m3.1 m3.2
  exact ⟨r1.1, r1.2, r2.1, r2.2, r3.1, r3.2⟩

lemma fireScheme_inRange {x : ℝ} (h0 : 0 ≤ x) (h1 : x < 1) :
    (fireScheme x).inRange := by
  simp only [fireScheme]
  split_ifs with hA <;>
    refine ⟨?_, ?_, ?_, ?_, ?_, ?_⟩ <;>
    first
      | (norm_num; done)
      | exact Int.floor_nonneg.mpr (by linarith)
      | exact floor_le_255 (by linarith)

lemma oceanScheme_inRange {x : ℝ} (h0 : 0 ≤ x) (h1 : x < 1) :
    (oceanScheme x).inRange := by
  simp only [oceanScheme]
  refine ⟨?_, ?_, ?_, ?_, ?_, ?_⟩ <;>
    first
      | exact Int.floor_nonneg.mpr (by linarith)
      | exact floor_le_255 (by linarith)

lemma rainbowScheme_inRange {x : ℝ} (h0 : 0 ≤ x) (h1 : x < 1) :
    (rainbowScheme x).inRange := by
  have ht0 : 0 ≤ Int.fract (x * 6) := Int.fract_nonneg _
  have ht1 : Int.fract (x * 6) < 1 := Int.fract_lt_one _
  simp only [rainbowScheme]
  split_ifs <;>
    refine ⟨?_, ?_, ?_, ?_, ?_, ?_⟩ <;>
    first
      | (norm_num; done)
      | exact Int.floor_nonneg.mpr (by linarith)
      | exact floor_le_255 (by linarith)

lemma grayscaleScheme_inRange {x : ℝ} (h0 : 0 ≤ x) (h1 : x < 1) :
    (grayscaleScheme x).inRange := by
  simp only [grayscaleScheme]
  refine ⟨?_, ?_, ?_, ?_, ?_, ?_⟩ <;>
    first
      | exact Int.floor_nonneg.mpr (by linarith)
      | exact floor_le_255 (by linarith)

lemma sunsetScheme_inRange {x : ℝ} (h0 : 0 ≤ x) (h1 : x < 1) :
    (sunsetScheme x).inRange := by
  simp only [sunsetScheme]
  split_ifs with hA hB
  · have ht0 : 0 ≤ x / 0.3 := by positivity
    have ht1 : x / 0.3 < 1 := by
      rw [div_lt_one (by norm_num)]
      linarith
    refine ⟨?_, ?_, ?_, ?_, ?_, ?_⟩ <;>
      first
        | exact Int.floor_nonneg.mpr (by linarith)
        | exact floor_le_255 (by linarith)
  · have ht0 : 0 ≤ (x - 0.3) / 0.4 := by
      apply div_nonneg _ (by norm_num)
      linarith
    have ht1 : (x - 0.3) / 0.4 < 1 := by
      rw [div_lt_one (by norm_num)]
      linarith
    refine ⟨?_, ?_, ?_, ?_, ?_, ?_⟩ <;>
      first
        | (norm_num; done)
        | exact Int.floor_nonneg.mpr (by linarith)
        | exact floor_le_255 (by linarith)
  · have ht0 : 0 ≤ (x - 0.7) / 0.3 := by
      apply div_nonneg _ (by norm_num)
      linarith
    have ht1 : (x - 0.7) / 0.3 < 1 := by
      rw [div_lt_one (by norm_num)]
      linarith
    refine ⟨?_, ?_, ?_, ?_, ?_, ?_⟩ <;>
      first
        | (norm_num; done)
        | exact Int.floor_nonneg.mpr (by linarith)
        | exact floor_le_255 (by linarith)

lemma neonScheme_inRange {x : ℝ} (h0 : 0 ≤ x) (h1 : x < 1) :
    (neonScheme x).inRange := by
  simp only [neonScheme]
  have s1a := Real.neg_one_le_sin (x * Real.pi * 4)
  have s1b := Real.sin_le_one (x * Real.pi * 4)
  have s2a := Real.neg_one_le_sin (x * Real.pi * 4 + Real.pi * 2 / 3)
  have s2b := Real.sin_le_one (x * Real.pi * 4 + Real.pi * 2 / 3)
  have s3a := Real.neg_one_le_sin (x * Real.pi * 4 + Real.pi * 4 / 3)
  have s3b := Real.sin_le_one (x * Real.pi * 4 + Real.pi * 4 / 3)
  refine ⟨?_, ?_, ?_, ?_, ?_, ?_⟩ <;>
    first
      | exact Int.floor_nonneg.mpr (by linarith)
      | exact floor_le_255 (by linarith)

lemma forestScheme_inRange {x : ℝ} (h0 : 0 ≤ x) (h1 : x < 1) :
    (forestScheme x).inRange := by
  simp only [forestScheme]
  split_ifs with hA hB
  · have ht0 : 0 ≤ x / 0.4 := by positivity
    have ht1 : x / 0.4 < 1 := by
      rw [div_lt_one (by norm_num)]
      linarith
    refine ⟨?_, ?_, ?_, ?_, ?_, ?_⟩ <;>
      first
        | exact Int.floor_nonneg.mpr (by linarith)
        | exact floor_le_255 (by linarith)
  · have ht0 : 0 ≤ (x - 0.4) / 0.4 := by
      apply div_nonneg _ (by norm_num)
      linarith
    have ht1 : (x - 0.4) / 0.4 < 1 := by
      rw [div_lt_one (by norm_num)]
      linarith
    refine ⟨?_, ?_, ?_, ?_, ?_, ?_⟩ <;>
      first
        | exact Int.floor_nonneg.mpr (by linarith)
        | exact floor_le_255 (by linarith)
  · have ht0 : 0 ≤ (x - 0.8) / 0.2 := by
      apply div_nonneg _ (by norm_num)
      linarith
    have ht1 : (x - 0.8) / 0.2 < 1 := by
      rw [div_lt_one (by norm_num)]
      linarith
    refine ⟨?_, ?_, ?_, ?_, ?_, ?_⟩ <;>
      first
        | exact Int.floor_nonneg.mpr (by linarith)
        | exact floor_le_255 (by linarith)

lemma cosmicScheme_inRange {x : ℝ} (h0 : 0 ≤ x) (h1 : x < 1) :
    (cosmicScheme x).inRange := by
  simp only [cosmicScheme]
  split_ifs with hA hB hC
  · have ht0 : 0 ≤ x / 0.25 := by positivity
    have ht1 : x / 0.25 < 1 := by
      rw [div_lt_one (by norm_num)]
      linarith
    refine ⟨?_, ?_, ?_, ?_, ?_, ?_⟩ <;>
      first
        | exact Int.floor_nonneg.mpr (by linarith)
        | exact floor_le_255 (by linarith)
  · have ht0 : 0 ≤ (x - 0.25) / 0.25 := by
      apply div_nonneg _ (by norm_num)
      linarith
    have ht1 : (x - 0.25) / 0.25 < 1 := by
      rw [div_lt_one (by norm_num)]
      linarith
    refine ⟨?_, ?_, ?_, ?_, ?_, ?_⟩ <;>
      first
        | exact Int.floor_nonneg.mpr (by linarith)
        | exact floor_le_255 (by linarith)
  · have ht0 : 0 ≤ (x - 0.5) / 0.25 := by
      apply div_nonneg _ (by norm_num)
      linarith
    have ht1 : (x - 0.5) / 0.25 < 1 := by
      rw [div_lt_one (by norm_num)]
      linarith
    refine ⟨?_, ?_, ?_, ?_, ?_, ?_⟩ <;>
      first
        | exact Int.floor_nonneg.mpr (by linarith)
        | exact floor_le_255 (by linarith)
  · have ht0 : 0 ≤ (x - 0.75) / 0.25 := by
      apply div_nonneg _ (by norm_num)
      linarith
    have ht1 : (x - 0.75) / 0.25 < 1 := by
      rw [div_lt_one (by norm_num)]
      linarith
    refine ⟨?_, ?_, ?_, ?_, ?_, ?_⟩ <;>
      first
        | (norm_num; done)
        | exact Int.floor_nonneg.mpr (by linarith)
        | exact floor_le_255 (by linarith)

lemma copperScheme_inRange {x : ℝ} (h0 : 0 ≤ x) (h1 : x < 1) :
    (copperScheme x).inRange := by
  simp only [copperScheme]
  have hb0 : 0 ≤ x ^ (0.7 : ℝ) := Real.rpow_nonneg h0 _
  have hb1 : x ^ (0.7 : ℝ) ≤ 1 := Real.rpow_le_one h0 (le_of_lt h1) (by norm_num)
  refine ⟨?_, ?_, ?_, ?_, ?_, ?_⟩ <;>
    first
      | exact Int.floor_nonneg.mpr (by linarith)
      | exact floor_le_255 (by linarith)

lemma iceScheme_inRange {x : ℝ} (h0 : 0 ≤ x) (h1 : x < 1) :
    (iceScheme x).inRange := by
  simp only [iceScheme]
  split_ifs with hA hB
  · have ht0 : 0 ≤ x / 0.3 := by positivity
    have ht1 : x / 0.3 < 1 := by
      rw [div_lt_one (by norm_num)]
      linarith
    refine ⟨?_, ?_, ?_, ?_, ?_, ?_⟩ <;>
      first
        | exact Int.floor_nonneg.mpr (by linarith)
        | exact floor_le_255 (by linarith)
  · have ht0 : 0 ≤ (x - 0.3) / 0.4 := by
      apply div_nonneg _ (by norm_num)
      linarith
    have ht1 : (x - 0.3) / 0.4 < 1 := by
      rw [div_lt_one (by norm_num)]
      linarith
    refine ⟨?_, ?_, ?_, ?_, ?_, ?_⟩ <;>
      first
        | (norm_num; done)
        | exact Int.floor_nonneg.mpr (by linarith)
        | exact floor_le_255 (by linarith)
  · have ht0 : 0 ≤ (x - 0.7) / 0.3 := by
      apply div_nonneg _ (by norm_num)
      linarith
    have ht1 : (x - 0.7) / 0.3 < 1 := by
      rw [div_lt_one (by norm_num)]
      linarith
    refine ⟨?_, ?_, ?_, ?_, ?_, ?_⟩ <;>
      first
        | (norm_num; done)
        | exact Int.floor_nonneg.mpr (by linarith)
        | exact floor_le_255 (by linarith)

lemma volcanicScheme_inRange {x : ℝ} (h0 : 0 ≤ x) (h1 : x < 1) :
    (volcanicScheme x).inRange := by
  simp only [volcanicScheme]
  split_ifs with hA hB hC hD
  · have ht0 : 0 ≤ x / 0.2 := by positivity
    have ht1 : x / 0.2 < 1 := by
      rw [div_lt_one (by norm_num)]
      linarith
    refine ⟨?_, ?_, ?_, ?_, ?_, ?_⟩ <;>
      first
        | exact Int.floor_nonneg.mpr (by linarith)
        | exact floor_le_255 (by linarith)
  · have ht0 : 0 ≤ (x - 0.2) / 0.2 := by
      apply div_nonneg _ (by norm_num)
      linarith
    have ht1 : (x - 0.2) / 0.2 < 1 := by
      rw [div_lt_one (by norm_num)]
      linarith
    refine ⟨?_, ?_, ?_, ?_, ?_, ?_⟩ <;>
      first
        | exact Int.floor_nonneg.mpr (by linarith)
        | exact floor_le_255 (by linarith)
  · have ht0 : 0 ≤ (x - 0.4) / 0.2 := by
      apply div_nonneg _ (by norm_num)
      linarith
    have ht1 : (x - 0.4) / 0.2 < 1 := by
      rw [div_lt_one (by norm_num)]
      linarith
    refine ⟨?_, ?_, ?_, ?_, ?_, ?_⟩ <;>
      first
        | (norm_num; done)
        | exact Int.floor_nonneg.mpr (by linarith)
        | exact floor_le_255 (by linarith)
  · have ht0 : 0 ≤ (x - 0.6) / 0.2 := by
      apply div_nonneg _ (by norm_num)
      linarith
    have ht1 : (x - 0.6) / 0.2 < 1 := by
      rw [div_lt_one (by norm_num)]
      linarith
    refine ⟨?_, ?_, ?_, ?_, ?_, ?_⟩ <;>
      first
        | (norm_num; done)
        | exact Int.floor_nonneg.mpr (by linarith)
        | exact floor_le_255 (by linarith)
  · have ht0 : 0 ≤ (x - 0.8) / 0.2 := by
      apply div_nonneg _ (by norm_num)
      linarith
    have ht1 : (x - 0.8) / 0.2 < 1 := by
      rw [div_lt_one (by norm_num)]
      linarith
    refine ⟨?_, ?_, ?_, ?_, ?_, ?_⟩ <;>
      first
        | (norm_num; done)
        | exact Int.floor_nonneg.mpr (by linarith)
        | exact floor_le_255 (by linarith)

end ColorSchemes

/-- C4: for every one of the twelve named color schemes,
`getColor(maxIterations, maxIterations, scheme)` returns exactly
`{r: 0, g: 0, b: 0}`; and for every `iterations` with
`0 <= iterations < maxIterations` the ratio `iterations / maxIterations`
lies in `[0, 1)` and `getColor` returns a defined RGB value whose `r`, `g`,
`b` channels (integers by construction, as values of `Math.floor` /
`Math.round`) each lie in `[0, 255]`. -/
theorem getColor_black_sentinel_and_range :
    (∀ (maxIterations : ℝ) (scheme : ColorScheme),
      ColorSchemes.getColor maxIterations maxIterations scheme = ⟨0, 0, 0⟩) ∧
    (∀ (iterations maxIterations : ℝ) (scheme : ColorScheme),
      0 ≤ iterations → iterations < maxIterations →
      0 ≤ iterations / maxIterations ∧ iterations / maxIterations < 1 ∧
      (ColorSchemes.getColor iterations maxIterations scheme).inRange) := by
  constructor
  · intro maxIterations scheme
    simp [ColorSchemes.getColor]
  · intro iterations maxIterations scheme h0 hlt
    have hmax : 0 < maxIterations := lt_of_le_of_lt h0 hlt
    have hr0 : 0 ≤ iterations / maxIterations := div_nonneg h0 (le_of_lt hmax)
    have hr1 : iterations / maxIterations < 1 := (div_lt_one hmax).mpr hlt
    refine ⟨hr0, hr1, ?_⟩
    rw [ColorSchemes.getColor, if_neg (ne_of_lt hlt)]
    cases scheme
    · exact ColorSchemes.classicScheme_inRange hr0 hr1
    · exact ColorSchemes.fireScheme_inRange hr0 hr1
    · exact ColorSchemes.oceanScheme_inRange hr0 hr1
    · exact ColorSchemes.rainbowScheme_inRange hr0 hr1
    · exact ColorSchemes.grayscaleScheme_inRange hr0 hr1
    · exact ColorSchemes.sunsetScheme_inRange hr0 hr1
    · exact ColorSchemes.neonScheme_inRange hr0 hr1
    · exact ColorSchemes.forestScheme_inRange hr0 hr1
    · exact ColorSchemes.cosmicScheme_inRange hr0 hr1
    · exact ColorSchemes.copperScheme_inRange hr0 hr1
    · exact ColorSchemes.iceScheme_inRange hr0 hr1
    · exact ColorSchemes.volcanicScheme_inRange hr0 hr1

/-- Witness for C4: the sentinel part at `maxIterations = 100` with the
`grayscale` scheme, and the range part at `iterations = 50`,
`maxIterations = 100` with the `grayscale` scheme, hypotheses discharged
at the concrete input. -/
theorem getColor_black_sentinel_and_range_witness :
    ColorSchemes.getColor 100 100 ColorScheme.grayscale = ⟨0, 0, 0⟩ ∧
    (ColorSchemes.getColor 50 100 ColorScheme.grayscale).inRange :=
  ⟨getColor_black_sentinel_and_range.1 100 ColorScheme.grayscale,
   (getColor_black_sentinel_and_range.2 50 100 ColorScheme.grayscale
      (by norm_num) (by norm_num)).2.2⟩

namespace Renderer3D

/-- `Renderer3D.calculateSmoothHeight` from the smooth-surface renderer
(`renderer3d.ts`, the variant with Gaussian smoothing): `0` at the in-set
sentinel, otherwise a `0.4 / 0.3 / 0.3` blend of `Math.pow(u, 0.5)`,
`Math.log(1 + u * 9) / Math.log(10)` and `Math.sin(u * PI / 2)` of
`u = 1 - iterations / maxIterations`, scaled by the height-scale factor. -/
noncomputable def calculateSmoothHeight (iterations maxIterations heightScale : ℝ) : ℝ :=
  if iterations = maxIterations then 0
  else
    let normalizedIterations := iterations / maxIterations
    let exponential := (1 - normalizedIterations) ^ (0.5 : ℝ)
    let logarithmic := Real.log (1 + (1 - normalizedIterations) * 9) / Real.log 10
    let sinusoidal := Real.sin ((1 - normalizedIterations) * Real.pi / 2)
    let blended := exponential * 0.4 + logarithmic * 0.3 + sinusoidal * 0.3
    heightScale * blended

/-- The inline per-point height computation of `Renderer3D.render` in
`src/renderer3d.ts` (the older point-cloud renderer): in-set points get
`z = heightScale * 1.2` (tall peaks), all other points get
`z = Math.pow(1 - iterations / maxIterations, 2) * heightScale`. -/
noncomputable def pointHeight (iterations maxIterations heightScale : ℝ) : ℝ :=
  if iterations = maxIterations then heightScale * 1.2
  else
    let normalizedHeight := (1 - iterations / maxIterations) ^ (2 : ℝ)
    normalizedHeight * heightScale

/-- The smooth height is nonnegative on the meaningful input range. -/
lemma calculateSmoothHeight_nonneg {iterations maxIterations heightScale : ℝ}
    (h0 : 0 ≤ iterations) (hle : iterations ≤ maxIterations)
    (hmax : 0 < maxIterations) (hs : 0 ≤ heightScale) :
    0 ≤ calculateSmoothHeight iterations maxIterations heightScale := by
  rw [calculateSmoothHeight]
  split_ifs with hsen
  · exact le_refl 0
  · have hn0 : 0 ≤ iterations / maxIterations := div_nonneg h0 (le_of_lt hmax)
    have hn1 : iterations / maxIterations ≤ 1 := by
      rw [div_le_one hmax]
      exact hle
    have he : 0 ≤ (1 - iterations / maxIterations) ^ (0.5 : ℝ) :=
      Real.rpow_nonneg (by linarith) _
    have hl : 0 ≤ Real.log (1 + (1 - iterations / maxIterations) * 9) / Real.log 10 := by
      apply div_nonneg
      · exact Real.log_nonneg (by nlinarith)
      · exact Real.log_nonneg (by norm_num)
    have hsin : 0 ≤ Real.sin ((1 - iterations / maxIterations) * Real.pi / 2) := by
      apply Real.sin_nonneg_of_nonneg_of_le_pi
      · have := Real.pi_pos
        nlinarith
      · have := Real.pi_pos
        nlinarith
    nlinarith

end Renderer3D

/-- C6 counterexample: the claim requires the per-cell height of the 3D
surface renderer to be exactly `0` at the in-set sentinel
`iterations = maxIterations`, but the height computation of
`Renderer3D.render` in `src/renderer3d.ts` (one of the two functions the
claim covers) puts in-set points at `heightScale * 1.2`: at
`iterations = maxIterations = 1` and `heightScale = 50` it returns
`60`, not `0` — and `60` exceeds the height `50` of a cell with a lower
iteration ratio, so the height is not non-increasing either. -/
theorem pointHeight_sentinel_not_zero :
    Renderer3D.pointHeight 1 1 50 = 60 ∧
    Renderer3D.pointHeight 1 1 50 ≠ 0 ∧
    Renderer3D.pointHeight 0 1 50 < Renderer3D.pointHeight 1 1 50 := by
  have hsen : Renderer3D.pointHeight 1 1 50 = 60 := by
    rw [Renderer3D.pointHeight, if_pos rfl]
    norm_num
  have h0 : Renderer3D.pointHeight 0 1 50 = 50 := by
    rw [Renderer3D.pointHeight, if_neg (by norm_num)]
    norm_num
  refine ⟨hsen, by rw [hsen]; norm_num, by rw [hsen, h0]; norm_num⟩

/-- C6 (amended): for the smooth-surface renderer's
`calculateSmoothHeight` (the height function the specification describes),
for every `maxIterations > 0` and `heightScale > 0` the height is exactly
`0` at the in-set sentinel, and over `iterations` in `[0, maxIterations]`
the height is monotonically non-increasing in the iteration ratio.  The
older point-cloud renderer in `src/renderer3d.ts` instead assigns in-set
points the maximal height `heightScale * 1.2`. -/
theorem calculateSmoothHeight_sentinel_zero_and_antitone :
    (∀ maxIterations heightScale : ℝ,
      Renderer3D.calculateSmoothHeight maxIterations maxIterations heightScale = 0) ∧
    (∀ it1 it2 maxIterations heightScale : ℝ,
      0 < maxIterations → 0 < heightScale →
      0 ≤ it1 → it1 ≤ it2 → it2 ≤ maxIterations →
      Renderer3D.calculateSmoothHeight it2 maxIterations heightScale ≤
        Renderer3D.calculateSmoothHeight it1 maxIterations heightScale) := by
  constructor
  · intro maxIterations heightScale
    rw [Renderer3D.calculateSmoothHeight, if_pos rfl]
  · intro it1 it2 maxIterations heightScale hmax hs h1 h12 h2M
    by_cases hsen : it2 = maxIterations
    · rw [hsen, Renderer3D.calculateSmoothHeight, if_pos rfl]
      exact Renderer3D.calculateSmoothHeight_nonneg h1 (by linarith) hmax (le_of_lt hs)
    · have hlt2 : it2 < maxIterations := lt_of_le_of_ne h2M hsen
      have hlt1 : it1 < maxIterations := lt_of_le_of_lt h12 hlt2
      rw [Renderer3D.calculateSmoothHeight, if_neg hsen,
        Renderer3D.calculateSmoothHeight, if_neg (ne_of_lt hlt1)]
      have hn2lt : it2 / maxIterations < 1 := (div_lt_one hmax).mpr hlt2
      have hn10 : 0 ≤ it1 / maxIterations := div_nonneg h1 (le_of_lt hmax)
      have hn12 : it1 / maxIterations ≤ it2 / maxIterations :=
        (div_le_div_right hmax).mpr h12
      set u1 := 1 - it1 / maxIterations with hu1
      set u2 := 1 - it2 / maxIterations with hu2
      have hu2pos : 0 < u2 := by simp only [hu2]; linarith
      have hu21 : u2 ≤ u1 := by simp only [hu1, hu2]; linarith
      have hu1le : u1 ≤ 1 := by simp only [hu1]; linarith
      have he : u2 ^ (0.5 : ℝ) ≤ u1 ^ (0.5 : ℝ) :=
        Real.rpow_le_rpow (le_of_lt hu2pos) hu21 (by norm_num)
      have hl : Real.log (1 + u2 * 9) / Real.log 10 ≤
          Real.log (1 + u1 * 9) / Real.log 10 := by
        apply (div_le_div_right (Real.log_pos (by norm_num))).mpr
        exact Real.log_le_log (by nlinarith) (by nlinarith)
      have hsin : Real.sin (u2 * Real.pi / 2) ≤ Real.sin (u1 * Real.pi / 2) := by
        have hpi := Real.pi_pos
        apply Real.sin_le_sin_of_le_of_le_pi_div_two
        · nlinarith
        · nlinarith
        · nlinarith
      have hblend : u2 ^ (0.5 : ℝ) * 0.4 + Real.log (1 + u2 * 9) / Real.log 10 * 0.3 +
          Real.sin (u2 * Real.pi / 2) * 0.3 ≤
          u1 ^ (0.5 : ℝ) * 0.4 + Real.log (1 + u1 * 9) / Real.log 10 * 0.3 +
          Real.sin (u1 * Real.pi / 2) * 0.3 := by
        linarith
      exact mul_le_mul_of_nonneg_left hblend (le_of_lt hs)

/-- Witness for C6 (amended) at `it1 = 0`, `it2 = 1`,
`maxIterations = 2`, `heightScale = 50`. -/
theorem calculateSmoothHeight_sentinel_zero_and_antitone_witness :
    Renderer3D.calculateSmoothHeight 2 2 50 = 0 ∧
    Renderer3D.calculateSmoothHeight 1 2 50 ≤
      Renderer3D.calculateSmoothHeight 0 2 50 :=
  ⟨calculateSmoothHeight_sentinel_zero_and_antitone.1 2 50,
   calculateSmoothHeight_sentinel_zero_and_antitone.2 0 1 2 50
     (by norm_num) (by norm_num) (by norm_num) (by norm_num) (by norm_num)⟩

namespace Renderer3D

/-- One raw Gaussian kernel entry of `applyGaussianSmoothing`
(`renderer3d.ts`): `sigma = radius / 3`,
`distance = Math.sqrt(kx*kx + ky*ky)`,
`value = Math.exp(-(distance*distance) / (2*sigma*sigma))`. -/
noncomputable def gaussianKernelValue (radius : ℕ) (ky kx : ℤ) : ℝ :=
  let sigma : ℝ := (radius : ℝ) / 3
  let distance : ℝ := Real.sqrt ((kx : ℝ) * kx + (ky : ℝ) * ky)
  Real.exp (-(distance * distance) / (2 * sigma * sigma))

/-- The index grid of the kernel loops: `ky` and `kx` each range over
`-radius .. radius`, giving `(2*radius+1) x (2*radius+1)` entries. -/
def kernelIndices (radius : ℕ) : Finset (ℤ × ℤ) :=
  Finset.Icc (-(radius : ℤ)) radius ×ˢ Finset.Icc (-(radius : ℤ)) radius

/-- `kernelSum`, the running total the source accumulates over all raw
kernel entries. -/
noncomputable def gaussianKernelSum (radius : ℕ) : ℝ :=
  ∑ p ∈ kernelIndices radius, gaussianKernelValue radius p.1 p.2

/-- A normalized kernel entry: the source divides every entry by
`kernelSum`. -/
noncomputable def normalizedGaussianKernel (radius : ℕ) (ky kx : ℤ) : ℝ :=
  gaussianKernelValue radius ky kx / gaussianKernelSum radius

/-- Every raw kernel entry is positive, so the kernel sum is positive. -/
lemma gaussianKernelSum_pos (radius : ℕ) : 0 < gaussianKernelSum radius := by
  apply Finset.sum_pos
  · intro p _
    exact Real.exp_pos _
  · refine ⟨(0, 0), ?_⟩
    simp only [kernelIndices, Finset.mem_product, Finset.mem_Icc]
    constructor <;> constructor <;> omega

end Renderer3D

/-- C9: for every smoothing radius `>= 1`, the normalized Gaussian kernel
built by `applyGaussianSmoothing` — the `(2*radius+1) x (2*radius+1)` grid
of `exp(-d^2 / (2*sigma^2))` values with `sigma = radius/3`, each divided
by their total — has weights summing to exactly `1` (exact real
arithmetic; the implementation realises this up to floating-point
rounding). -/
theorem gaussianKernel_normalized_sums_to_one (radius : ℕ) (hr : 1 ≤ radius) :
    ∑ p ∈ Renderer3D.kernelIndices radius,
      Renderer3D.normalizedGaussianKernel radius p.1 p.2 = 1 := by
  have hpos := Renderer3D.gaussianKernelSum_pos radius
  simp only [Renderer3D.normalizedGaussianKernel]
  rw [← Finset.sum_div]
  exact div_self (ne_of_gt hpos)

/-- Witness for C9 at the source's default smoothing radius `2`. -/
theorem gaussianKernel_normalized_sums_to_one_witness :
    ∑ p ∈ Renderer3D.kernelIndices 2,
      Renderer3D.normalizedGaussianKernel 2 p.1 p.2 = 1 :=
  gaussianKernel_normalized_sums_to_one 2 (by norm_num)

namespace Renderer3D

/-- `ProjectedPoint` from `renderer3d.ts`: a grid vertex after rotation
and perspective projection. -/
structure ProjectedPoint where
  x : ℝ
  y : ℝ
  z : ℝ
  iterations : ℝ
  scale : ℝ
  gridX : ℕ
  gridY : ℕ

/-- One entry of the triangle list built by `renderSurface`: the three
corner points, the average post-rotation depth `avgZ`, and the
representative iteration value. -/
structure Triangle where
  points : List ProjectedPoint
  avgZ : ℝ
  iterations : ℝ

/-- The two triangles `renderSurface` builds for one grid quad
(`p1 p2 / p3 p4` being the upper-left, upper-right, lower-left and
lower-right corners): `[p1, p2, p3]` and `[p2, p3, p4]`, each with the
mean of its corners' `z` values and the maximum of their iteration
values. -/
noncomputable def quadTriangles (p1 p2 p3 p4 : ProjectedPoint) : List Triangle :=
  [⟨[p1, p2, p3], (p1.z + p2.z + p3.z) / 3, max p1.iterations (max p2.iterations p3.iterations)⟩,
   ⟨[p2, p3, p4], (p2.z + p3.z + p4.z) / 3, max p2.iterations (max p3.iterations p4.iterations)⟩]

/-- The inner loop of `renderSurface` over one pair of adjacent grid rows:
every pair of horizontally adjacent vertices in both rows yields one
quad's two triangles.  Recursion stops when either row runs out, matching
the source's bounds checks on `gridX + 1`. -/
noncomputable def rowTriangles : List ProjectedPoint → List ProjectedPoint → List Triangle
  | p1 :: p2 :: r1, p3 :: p4 :: r2 =>
    quadTriangles p1 p2 p3 p4 ++ rowTriangles (p2 :: r1) (p4 :: r2)
  | _, _ => []

/-- The outer loop of `renderSurface` over adjacent grid-row pairs. -/
noncomputable def collectTriangles : List (List ProjectedPoint) → List Triangle
  | row1 :: row2 :: rest => rowTriangles row1 row2 ++ collectTriangles (row2 :: rest)
  | _ => []

/-- The depth sort of `renderSurface`:
`triangles.sort((a, b) => b.avgZ - a.avgZ)`, i.e. sorting by descending
average depth; embedded as a merge sort under the total preorder
`b.avgZ <= a.avgZ`. -/
noncomputable def depthSortTriangles (ts : List Triangle) : List Triangle :=
  ts.mergeSort fun a b => decide (b.avgZ ≤ a.avgZ)

end Renderer3D

/-- C8: for every projected grid, after `renderSurface`'s depth sort of
the collected triangle list the sequence of triangle average depths is
non-increasing — every adjacent pair in the sorted sequence satisfies
`avgZ[i] >= avgZ[i+1]`, so triangles are rendered back-to-front. -/
theorem depthSort_back_to_front (grid : List (List Renderer3D.ProjectedPoint)) :
    List.Chain' (fun a b => b.avgZ ≤ a.avgZ)
      (Renderer3D.depthSortTriangles (Renderer3D.collectTriangles grid)) := by
  have hp := @List.sorted_mergeSort Renderer3D.Triangle
    (fun a b : Renderer3D.Triangle => decide (b.avgZ ≤ a.avgZ))
    (fun a b c hab hbc => by
      simp only [decide_eq_true_eq] at *
      exact le_trans hbc hab)
    (fun a b => by
      simp only [Bool.or_eq_true, decide_eq_true_eq]
      exact le_total b.avgZ a.avgZ)
    (Renderer3D.collectTriangles grid)
  have hp' : (Renderer3D.depthSortTriangles (Renderer3D.collectTriangles grid)).Pairwise
      (fun a b => b.avgZ ≤ a.avgZ) := by
    refine List.Pairwise.imp ?_ hp
    intro a b h
    exact of_decide_eq_true h
  exact hp'.chain'
